import Mathlib

/-! Overdue classification of todo records.

A shallow embedding of `packages/frontend/src/utils/dateUtils.js` (`isOverdue`)
and of the overdue summary and refresh timer of
`packages/frontend/src/components/TodoList.js`.

JavaScript values are modelled by `JSVal`; a Date object's time value is an
`Option Int` (milliseconds since the epoch, `none` for `NaN`).  The wall clock
read by `new Date()` is the explicit parameter `now`; the host's local time-zone
adjustment is the field `localTZA` of `Host`, a fixed number of milliseconds.
-/

namespace TodoApp

/-! ## JavaScript values and the host -/

/-- The JavaScript values a todo field can hold.  Numbers are the
integer-valued ones. -/
inductive JSVal where
  | undefined : JSVal
  | null : JSVal
  | bool (b : Bool) : JSVal
  | num (n : Int) : JSVal
  | str (s : String) : JSVal
  | symbol (description : String) : JSVal
  deriving DecidableEq, Repr

/-- The exception a JavaScript operation can throw. -/
inductive JSError where
  | typeError (msg : String) : JSError
  deriving DecidableEq, Repr

/-- A todo record, as read by `isOverdue` and `TodoList`. -/
structure Todo where
  id : Nat
  title : String
  dueDate : JSVal
  completed : JSVal
  deriving DecidableEq, Repr

/-- The host the code runs on: the local time-zone adjustment in milliseconds
(local time minus UTC) and what `Date.parse` gives for a string that is not a
valid `YYYY-MM-DD` date (implementation-defined in ECMAScript). -/
structure Host where
  localTZA : Int
  fallbackParse : String → Option Int

/-- ECMAScript `ToBoolean`. -/
def toBoolean : JSVal → Bool
  | .undefined => false
  | .null => false
  | .bool b => b
  | .num n => n != 0
  | .str s => s != ""
  | .symbol _ => true

/-- ECMAScript strict equality `===` on the modelled values. -/
def strictEq (a b : JSVal) : Bool := decide (a = b)

/-! ## Time values -/

def msPerDay : Int := 86400000

/-- ECMAScript `TimeClip`: a time value beyond 8.64e15 ms is `NaN`. -/
def timeClip (t : Int) : Option Int :=
  if t < -8640000000000000 ∨ 8640000000000000 < t then none else some t

/-- ECMAScript `Day(t)`. -/
def day (t : Int) : Int := t / msPerDay

/-- ECMAScript `MakeTime(hour, min, sec, ms)`. -/
def makeTime (hour min sec ms : Int) : Int :=
  hour * 3600000 + min * 60000 + sec * 1000 + ms

/-- ECMAScript `MakeDate(day, time)`. -/
def makeDate (d time : Int) : Int := d * msPerDay + time

/-- ECMAScript `DayFromYear(y)`. -/
def dayFromYear (y : Int) : Int :=
  365 * (y - 1970) + (y - 1969) / 4 - (y - 1901) / 100 + (y - 1601) / 400

def isLeapYear (y : Nat) : Bool :=
  (y % 4 == 0 && y % 100 != 0) || y % 400 == 0

/-- Number of days in month `m` (1 to 12) of year `y`; 0 for any other `m`. -/
def daysInMonth (y m : Nat) : Nat :=
  match m with
  | 1 => 31
  | 2 => if isLeapYear y then 29 else 28
  | 3 => 31
  | 4 => 30
  | 5 => 31
  | 6 => 30
  | 7 => 31
  | 8 => 31
  | 9 => 30
  | 10 => 31
  | 11 => 30
  | 12 => 31
  | _ => 0

/-- Days of the year before the first of month `m` (1 to 12). -/
def daysBeforeMonth (y m : Nat) : Nat :=
  match m with
  | 0 => 0
  | 1 => 0
  | k + 2 => daysBeforeMonth y (k + 1) + daysInMonth y (k + 1)

/-- ECMAScript `MakeDay` for a calendar date: the day number (days since
1970-01-01) of year `y`, month `m` (1 to 12), day `d`. -/
def makeDay (y m d : Nat) : Int :=
  dayFromYear y + daysBeforeMonth y m + d - 1

/-! ## Parsing -/

def digitVal (c : Char) : Option Nat :=
  if c.isDigit then some (c.toNat - 48) else none

/-- The date-only form `YYYY-MM-DD` of the ECMAScript date-time string format:
year, month and day of a string of that shape naming a calendar date. -/
def parseISODate (s : String) : Option (Nat × Nat × Nat) :=
  match s.data with
  | [y1, y2, y3, y4, '-', m1, m2, '-', d1, d2] =>
    match digitVal y1, digitVal y2, digitVal y3, digitVal y4,
          digitVal m1, digitVal m2, digitVal d1, digitVal d2 with
    | some a, some b, some c, some e, some f, some g, some h, some i =>
      let y := 1000 * a + 100 * b + 10 * c + e
      let m := 10 * f + g
      let d := 10 * h + i
      if 1 ≤ m ∧ m ≤ 12 ∧ 1 ≤ d ∧ d ≤ daysInMonth y m then some (y, m, d) else none
    | _, _, _, _, _, _, _, _ => none
  | _ => none

/-- `Date.parse`: a valid `YYYY-MM-DD` date is midnight UTC of that date, any
other string is left to the host. -/
def dateParse (h : Host) (s : String) : Option Int :=
  match parseISODate s with
  | some (y, m, d) => some (makeDate (makeDay y m d) 0)
  | none => h.fallbackParse s

/-- The time value of `new Date(value)` for one argument.  A string is parsed,
any other primitive goes through `ToNumber`, which throws on a symbol. -/
def newDate (h : Host) : JSVal → Except JSError (Option Int)
  | .str s => .ok ((dateParse h s).bind timeClip)
  | .undefined => .ok none
  | .null => .ok (timeClip 0)
  | .bool b => .ok (timeClip (if b then 1 else 0))
  | .num n => .ok (timeClip n)
  | .symbol _ => .error (.typeError "Cannot convert a Symbol value to a number")

/-- `Date.prototype.setHours(hour, min, sec, ms)` on a time value: the same
local day at the given local time. -/
def setHours (h : Host) (tv : Option Int) (hour min sec ms : Int) : Option Int :=
  match tv with
  | none => none
  | some t =>
    let localT := t + h.localTZA
    let date := makeDate (day localT) (makeTime hour min sec ms)
    timeClip (date - h.localTZA)

/-- The relational `now > dueDate` of two Date objects: a comparison of their
time values, false when one is `NaN`. -/
def dateGt (a b : Option Int) : Bool :=
  match a, b with
  | some x, some y => decide (y < x)
  | _, _ => false

/-! ## `isOverdue` -/

/-- A call of `console.warn` with its three arguments. -/
structure Warning where
  message : String
  dueDate : JSVal
  error : JSError
  deriving DecidableEq, Repr

/-- The `try` block of `isOverdue`. -/
def isOverdueTry (h : Host) (todo : Todo) (now : Int) : Except JSError Bool :=
  match newDate h todo.dueDate with
  | .error e => .error e
  | .ok parsed =>
    let dueDate := setHours h parsed 23 59 59 999
    .ok (dateGt (some now) dueDate)

/-- The function `isOverdue` of `dateUtils.js`: the returned boolean and the
warnings written to the console, with the clock reading `now`. -/
def isOverdue (h : Host) (todo : Todo) (now : Int) : Bool × List Warning :=
  if !toBoolean todo.dueDate then (false, [])
  else if strictEq todo.completed (.num 1) || strictEq todo.completed (.bool true) then
    (false, [])
  else
    match isOverdueTry h todo now with
    | .ok b => (b, [])
    | .error e => (false, [⟨"Invalid date format in isOverdue:", todo.dueDate, e⟩])

/-! ## The boundary named by the specification -/

/-- The instant at 23:59:59.999 local time on the local day numbered `d`. -/
def endOfLocalDay (h : Host) (d : Int) : Int :=
  makeDate d (makeTime 23 59 59 999) - h.localTZA

/-- The local calendar day (as a day number) of the instant `now`. -/
def localDay (h : Host) (now : Int) : Int := day (now + h.localTZA)

/-- A time-zone offset is less than a day in either direction. -/
def validOffset (h : Host) : Prop :=
  -msPerDay < h.localTZA ∧ h.localTZA < msPerDay

instance (h : Host) : Decidable (validOffset h) := by
  unfold validOffset; infer_instance

/-- The `completed` field holds one of the two encodings of "incomplete". -/
def incomplete (todo : Todo) : Prop :=
  todo.completed = .num 0 ∨ todo.completed = .bool false

instance (todo : Todo) : Decidable (incomplete todo) := by
  unfold incomplete; infer_instance

/-- The local day on which midnight UTC of day `d` falls. -/
def parsedLocalDay (h : Host) (d : Int) : Int := day (makeDate d 0 + h.localTZA)

/-! ## `TodoList`: the overdue summary -/

/-- The callback of the `useMemo` hook of `TodoList`, whose result is
`overdueCount`: the length of the list of todos that `isOverdue` keeps, every
call reading the clock as `now`. -/
def overdueCount (h : Host) (todos : List Todo) (now : Int) : Nat :=
  (todos.filter (fun todo => (isOverdue h todo now).1)).length

/-- The children of the `overdue-summary` element for a count. -/
def overdueSummary (count : Nat) : List String :=
  ["⚠️ ", toString count, " overdue ", if count == 1 then "item" else "items"]

/-- What `TodoList` renders: the empty state, or the optional overdue summary
followed by one card per todo, each with its key. -/
inductive View where
  | emptyState (message : String) : View
  | todoList (summary : Option (List String)) (cards : List (String × Todo)) : View
  deriving DecidableEq, Repr

/-- A JavaScript object as a hook dependency sees it: its identity, compared by
`Object.is`, and its contents. -/
structure Ref (α : Type) where
  addr : Nat
  val : α

/-- One render of `TodoList`: the array passed as the prop `todos`, the Date
object held by the state `currentTime`, and the clock reading `now` during the
render. -/
structure Render where
  todos : Ref (List Todo)
  currentTime : Ref Int
  now : Int

/-- The cell of the `useMemo` hook: the identities of the two dependencies
`[todos, currentTime]` at the last run of the callback, and the value it gave. -/
structure MemoCell where
  todos : Nat
  currentTime : Nat
  value : Nat
  deriving DecidableEq, Repr

/-- Whether a dependency of the cell differs from the one of this render. -/
def depsChanged (cell : MemoCell) (r : Render) : Bool :=
  cell.todos != r.todos.addr || cell.currentTime != r.currentTime.addr

/-- The hook `useMemo(callback, [todos, currentTime])`: the callback runs on
the first render and whenever a dependency has changed; otherwise the value of
the cell is kept. -/
def useMemo (h : Host) (cell : Option MemoCell) (r : Render) : MemoCell :=
  match cell with
  | none => ⟨r.todos.addr, r.currentTime.addr, overdueCount h r.todos.val r.now⟩
  | some c =>
    if depsChanged c r then
      ⟨r.todos.addr, r.currentTime.addr, overdueCount h r.todos.val r.now⟩
    else c

/-- One render of `TodoList` with the memo cell left by the render before it
(`none` on the first render): the view and the new cell. -/
def TodoList (h : Host) (cell : Option MemoCell) (r : Render) : View × MemoCell :=
  let memo := useMemo h cell r
  let count := memo.value
  if r.todos.val.length == 0 then
    (.emptyState "No todos yet. Add one to get started! 👻", memo)
  else
    (.todoList (if count > 0 then some (overdueSummary count) else none)
      (r.todos.val.map
        (fun todo => (toString todo.id ++ "-" ++ toString r.currentTime.val, todo))),
      memo)

/-- The memo cell after a sequence of renders of one view. -/
def renderAll (h : Host) (cell : Option MemoCell) (renders : List Render) :
    Option MemoCell :=
  renders.foldl (fun c r => some (TodoList h c r).2) cell

/-- The text of the overdue summary of a view, when it has one. -/
def View.summaryText : View → Option String
  | .emptyState _ => none
  | .todoList summary _ => summary.map String.join

/-- The cell, if any, holds the count of overdue todos of one of the renders
seen, computed on its array at its clock reading, under its dependencies. -/
def cellComputedIn (h : Host) (seen : List Render) (cell : Option MemoCell) : Prop :=
  match cell with
  | none => True
  | some c =>
    ∃ r0, r0 ∈ seen ∧ c.todos = r0.todos.addr ∧ c.currentTime = r0.currentTime.addr ∧
      c.value = r0.todos.val.countP (fun todo => (isOverdue h todo r0.now).1)

/-! ## `TodoList`: the refresh timer -/

/-- An interval timer of the host: its id and its delay in milliseconds. -/
structure Timer where
  id : Nat
  delay : Nat
  deriving DecidableEq, Repr

/-- A `TodoList` instance together with the host's timer table: the props
`todos`, the state `currentTime`, the active timers, the next timer id and the
`intervalId` held by the effect's cleanup (`none` while there is no cleanup). -/
structure ViewState where
  todos : List Todo
  currentTime : Int
  timers : List Timer
  nextTimerId : Nat
  cleanup : Option Nat
  deriving DecidableEq, Repr

/-- The host's `setInterval(callback, delay)`: a fresh id and the new table. -/
def setInterval (s : ViewState) (delay : Nat) : Nat × ViewState :=
  (s.nextTimerId,
    { s with timers := s.timers ++ [⟨s.nextTimerId, delay⟩],
             nextTimerId := s.nextTimerId + 1 })

/-- The host's `clearInterval(id)`. -/
def clearInterval (s : ViewState) (id : Nat) : ViewState :=
  { s with timers := s.timers.filter (fun t => t.id != id) }

/-- The state setter `setCurrentTime`. -/
def setCurrentTime (s : ViewState) (t : Int) : ViewState :=
  { s with currentTime := t }

/-- The body of the effect, run on mount. -/
def mountEffect (s : ViewState) : ViewState :=
  let (intervalId, s1) := setInterval s 60000
  { s1 with cleanup := some intervalId }

/-- The cleanup returned by the effect, run on unmount. -/
def unmountEffect (s : ViewState) : ViewState :=
  match s.cleanup with
  | some intervalId => { clearInterval s intervalId with cleanup := none }
  | none => s

/-- The host fires timer `id` at the instant `now`: the callback runs when the
timer is active, and only then. -/
def fireTimer (s : ViewState) (id : Nat) (now : Int) : ViewState :=
  if s.timers.any (fun t => t.id == id) then setCurrentTime s now else s

inductive Event where
  | mount : Event
  | tick (id : Nat) (now : Int) : Event
  | unmount : Event
  deriving DecidableEq, Repr

def step (s : ViewState) : Event → ViewState
  | .mount => mountEffect s
  | .tick id now => fireTimer s id now
  | .unmount => unmountEffect s

def run (s : ViewState) (events : List Event) : ViewState :=
  events.foldl step s

/-- A view before its first mount. -/
def initialView (todos : List Todo) (currentTime : Int) : ViewState :=
  ⟨todos, currentTime, [], 0, none⟩

/-- The discipline of the component lifecycle: a view is mounted only while
unmounted and unmounted only while mounted. -/
def lifecycle (mounted : Bool) : List Event → Bool
  | [] => true
  | .mount :: events => !mounted && lifecycle true events
  | .unmount :: events => mounted && lifecycle false events
  | .tick _ _ :: events => lifecycle mounted events

/-- Whether the view is mounted after the events. -/
def mountedAfter (mounted : Bool) : List Event → Bool
  | [] => mounted
  | .mount :: events => mountedAfter true events
  | .unmount :: events => mountedAfter false events
  | .tick _ _ :: events => mountedAfter mounted events

/-- The invariant of a view under the lifecycle discipline: the todos are the
ones it was given; while mounted the only timer is the one whose id the cleanup
holds, with a delay of 60000 ms; while unmounted there is none. -/
def viewInvariant (todos : List Todo) (mounted : Bool) (s : ViewState) : Prop :=
  s.todos = todos ∧
  if mounted then ∃ id, s.cleanup = some id ∧ s.timers = [⟨id, 60000⟩]
  else s.cleanup = none ∧ s.timers = []

/-! ## Hosts used as examples -/

/-- A host five hours west of UTC whose `Date.parse` rejects every string that
is not a valid `YYYY-MM-DD` date. -/
def newYork : Host := ⟨-18000000, fun _ => none⟩

/-- A host eight hours west of UTC. -/
def losAngeles : Host := ⟨-28800000, fun _ => none⟩

/-- A host five and a half hours east of UTC. -/
def kolkata : Host := ⟨19800000, fun _ => none⟩

/-- A host on UTC. -/
def utc : Host := ⟨0, fun _ => none⟩

/-! ## Auxiliary facts about dates -/

theorem digitVal_le {c : Char} {a : Nat} (hc : digitVal c = some a) : a ≤ 9 := by
  unfold digitVal at hc
  split at hc
  · rename_i hd
    simp only [Option.some.injEq] at hc
    have h2 : c.toNat ≤ 57 := by
      simp only [Char.isDigit, Bool.and_eq_true, decide_eq_true_eq] at hd
      exact hd.2
    omega
  · simp at hc

theorem daysInMonth_le (y m : Nat) : daysInMonth y m ≤ 31 := by
  unfold daysInMonth
  split <;> try omega
  split <;> omega

theorem daysBeforeMonth_le (y m : Nat) (hm : m ≤ 12) : daysBeforeMonth y m ≤ 335 := by
  interval_cases m <;> simp only [daysBeforeMonth, daysInMonth] <;> (try split) <;> omega

theorem parseISODate_bounds {s : String} {y m d : Nat}
    (hp : parseISODate s = some (y, m, d)) :
    y ≤ 9999 ∧ 1 ≤ m ∧ m ≤ 12 ∧ 1 ≤ d ∧ d ≤ daysInMonth y m := by
  unfold parseISODate at hp
  split at hp
  · split at hp
    · rename_i a b c e f g h i ha hb hc he hf hg hh hi
      have := digitVal_le ha
      have := digitVal_le hb
      have := digitVal_le hc
      have := digitVal_le he
      simp only at hp
      split at hp
      · simp only [Option.some.injEq, Prod.mk.injEq] at hp
        obtain ⟨rfl, rfl, rfl⟩ := hp
        refine ⟨by omega, ?_⟩
        assumption
      · simp at hp
    · simp at hp
  · simp at hp

theorem parseISODate_ne_empty {s : String} {r : Nat × Nat × Nat}
    (hp : parseISODate s = some r) : s ≠ "" := by
  rintro rfl
  simp [parseISODate] at hp

theorem makeDay_bounds {y m d : Nat} (hy : y ≤ 9999) (hm : m ≤ 12) (hd1 : 1 ≤ d)
    (hd : d ≤ daysInMonth y m) :
    -719528 ≤ makeDay y m d ∧ makeDay y m d ≤ 2932927 := by
  have h1 := daysBeforeMonth_le y m hm
  have h2 := daysInMonth_le y m
  unfold makeDay dayFromYear
  omega

theorem timeClip_of_bounds {t : Int} (h1 : -8640000000000000 ≤ t)
    (h2 : t ≤ 8640000000000000) : timeClip t = some t := by
  unfold timeClip
  rw [if_neg]
  omega

/-- What `isOverdue` computes for an incomplete todo whose due date is a valid
`YYYY-MM-DD` date: whether `now` is past the end of the local day on which
midnight UTC of the due date falls. -/
theorem isOverdue_valid_date (h : Host) (todo : Todo) (now : Int) {s : String}
    {y m d : Nat} (hdue : todo.dueDate = .str s)
    (hp : parseISODate s = some (y, m, d)) (hc : incomplete todo)
    (htz : validOffset h) :
    isOverdue h todo now
      = (decide (endOfLocalDay h (parsedLocalDay h (makeDay y m d)) < now), []) := by
  obtain ⟨hy, hm1, hm, hd1, hd⟩ := parseISODate_bounds hp
  obtain ⟨hlo, hhi⟩ := makeDay_bounds hy hm hd1 hd
  have hne := parseISODate_ne_empty hp
  obtain ⟨ht1, ht2⟩ := htz
  have hclip1 : timeClip (makeDate (makeDay y m d) 0) = some (makeDate (makeDay y m d) 0) := by
    apply timeClip_of_bounds <;> (unfold makeDate msPerDay; omega)
  have hclip2 : timeClip (makeDate (day (makeDate (makeDay y m d) 0 + h.localTZA))
        (makeTime 23 59 59 999) - h.localTZA)
      = some (makeDate (day (makeDate (makeDay y m d) 0 + h.localTZA))
        (makeTime 23 59 59 999) - h.localTZA) := by
    apply timeClip_of_bounds <;>
      (unfold makeDate makeTime day msPerDay at *; omega)
  have hcomp : (strictEq todo.completed (.num 1) || strictEq todo.completed (.bool true))
      = false := by
    rcases hc with hc | hc <;> simp [hc, strictEq]
  unfold isOverdue
  simp only [hdue, toBoolean, hcomp, isOverdueTry, newDate, dateParse, hp, Option.bind,
    hclip1, setHours, hclip2, dateGt, endOfLocalDay, parsedLocalDay]
  simp [hne]

/-- East of UTC (and on UTC) the boundary is the one the specification names:
an incomplete todo with a valid `YYYY-MM-DD` due date is overdue exactly when
`now` is later than 23:59:59.999 local time on the due date. -/
theorem isOverdue_iff_east_of_utc (h : Host) (todo : Todo) (now : Int) {s : String}
    {y m d : Nat} (hdue : todo.dueDate = .str s)
    (hp : parseISODate s = some (y, m, d)) (hc : incomplete todo)
    (h0 : 0 ≤ h.localTZA) (h1 : h.localTZA < msPerDay) :
    (isOverdue h todo now).1 = true ↔ endOfLocalDay h (makeDay y m d) < now := by
  have htz : validOffset h := ⟨by unfold msPerDay at *; omega, h1⟩
  rw [isOverdue_valid_date h todo now hdue hp hc htz]
  have hday : parsedLocalDay h (makeDay y m d) = makeDay y m d := by
    unfold parsedLocalDay day makeDate msPerDay at *
    omega
  simp [hday]

/-! ## The claims -/

/-- C1 (fails west of UTC): on a host eight hours west of UTC, the incomplete
todo due 2025-12-25 is reported overdue at 09:00 local time on 2025-12-25,
an instant that is not later than 23:59:59.999 local time on the due date. -/
theorem isOverdue_before_end_of_due_date_west_of_utc :
    parseISODate "2025-12-25" = some (2025, 12, 25) ∧
    ¬ (endOfLocalDay losAngeles (makeDay 2025 12 25)
        < makeDate (makeDay 2025 12 25) (makeTime 9 0 0 0) - losAngeles.localTZA) ∧
    (isOverdue losAngeles ⟨1, "Todo 1", .str "2025-12-25", .num 0⟩
        (makeDate (makeDay 2025 12 25) (makeTime 9 0 0 0) - losAngeles.localTZA)).1
      = true := by
  decide

/-- C2 (fails west of UTC): on a host five hours west of UTC, at noon local time
on 2024-01-15 the incomplete todo due 2024-01-15, the local calendar date of
`now`, is reported overdue. -/
theorem isOverdue_due_today_west_of_utc :
    parseISODate "2024-01-15" = some (2024, 1, 15) ∧
    localDay newYork (makeDate (makeDay 2024 1 15) (makeTime 12 0 0 0) - newYork.localTZA)
      = makeDay 2024 1 15 ∧
    (isOverdue newYork ⟨1, "Test todo", .str "2024-01-15", .num 0⟩
        (makeDate (makeDay 2024 1 15) (makeTime 12 0 0 0) - newYork.localTZA)).1
      = true := by
  decide

/-- C3: an incomplete todo whose due date is a valid `YYYY-MM-DD` date one or more
calendar days before the calendar date of `now` (the local one, or the UTC one)
is overdue, at every time of day and for every time-zone offset. -/
theorem isOverdue_due_before_today (h : Host) (todo : Todo) (now : Int) {s : String}
    {y m d : Nat} (hdue : todo.dueDate = .str s)
    (hp : parseISODate s = some (y, m, d)) (hc : incomplete todo)
    (htz : validOffset h)
    (hbefore : makeDay y m d < localDay h now ∨ makeDay y m d < day now) :
    (isOverdue h todo now).1 = true := by
  rw [isOverdue_valid_date h todo now hdue hp hc htz]
  obtain ⟨ht1, ht2⟩ := htz
  simp only [decide_eq_true_eq]
  unfold endOfLocalDay parsedLocalDay localDay day makeDate makeTime msPerDay at *
  omega

theorem isOverdue_due_before_today_witness :
    validOffset newYork ∧
    makeDay 2024 1 14 < localDay newYork 1705338000000 ∧
    (isOverdue newYork ⟨1, "Test todo", .str "2024-01-14", .num 0⟩ 1705338000000).1
      = true :=
  ⟨by decide, by decide,
    isOverdue_due_before_today newYork ⟨1, "Test todo", .str "2024-01-14", .num 0⟩
      1705338000000 rfl (by decide : parseISODate "2024-01-14" = some (2024, 1, 14))
      (by decide) (by decide) (Or.inl (by decide))⟩

/-- C4: an incomplete todo whose due date is a valid `YYYY-MM-DD` date one or more
calendar days after the calendar date of `now` (the local one, or the UTC one)
is not overdue, at every time of day and for every time-zone offset. -/
theorem isOverdue_due_after_today (h : Host) (todo : Todo) (now : Int) {s : String}
    {y m d : Nat} (hdue : todo.dueDate = .str s)
    (hp : parseISODate s = some (y, m, d)) (hc : incomplete todo)
    (htz : validOffset h)
    (hafter : localDay h now < makeDay y m d ∨ day now < makeDay y m d) :
    (isOverdue h todo now).1 = false := by
  rw [isOverdue_valid_date h todo now hdue hp hc htz]
  obtain ⟨ht1, ht2⟩ := htz
  simp only [decide_eq_false_iff_not]
  unfold endOfLocalDay parsedLocalDay localDay day makeDate makeTime msPerDay at *
  omega

theorem isOverdue_due_after_today_witness :
    validOffset kolkata ∧
    localDay kolkata 1705338000000 < makeDay 2024 1 17 ∧
    (isOverdue kolkata ⟨1, "Test Todo", .str "2024-01-17", .bool false⟩ 1705338000000).1
      = false :=
  ⟨by decide, by decide,
    isOverdue_due_after_today kolkata ⟨1, "Test Todo", .str "2024-01-17", .bool false⟩
      1705338000000 rfl (by decide : parseISODate "2024-01-17" = some (2024, 1, 17))
      (by decide) (by decide) (Or.inl (by decide))⟩

/-- C5: a todo whose `dueDate` is absent (`null`, `undefined` or the empty
string) is not overdue, whatever `completed` and `now` are, and nothing is
logged. -/
theorem isOverdue_absent_dueDate (h : Host) (todo : Todo) (now : Int)
    (habsent : todo.dueDate = .null ∨ todo.dueDate = .undefined ∨ todo.dueDate = .str "") :
    isOverdue h todo now = (false, []) := by
  rcases habsent with hd | hd | hd <;> simp [isOverdue, hd, toBoolean]

theorem isOverdue_absent_dueDate_witness :
    isOverdue utc ⟨1, "Test todo", .null, .num 0⟩ 1705338000000 = (false, []) :=
  isOverdue_absent_dueDate utc ⟨1, "Test todo", .null, .num 0⟩ 1705338000000 (Or.inl rfl)

/-- C6: a todo whose `completed` is the integer 1 or the boolean `true` is not
overdue, for every `dueDate` (of any kind) and every `now`; both encodings
give the same result. -/
theorem isOverdue_completed (h : Host) (id : Nat) (title : String) (dueDate : JSVal)
    (now : Int) :
    isOverdue h ⟨id, title, dueDate, .num 1⟩ now = (false, []) ∧
    isOverdue h ⟨id, title, dueDate, .bool true⟩ now = (false, []) := by
  constructor <;> (unfold isOverdue; simp [strictEq])

/-- C7: for a todo whose `dueDate` is a string (non-empty in particular) that
`Date.parse` does not interpret as a date, the `try` block of `isOverdue`
completes without throwing and `isOverdue` returns false, whatever `completed`
and `now` are. -/
theorem isOverdue_unparseable_dueDate (h : Host) (todo : Todo) (now : Int) (s : String)
    (hdue : todo.dueDate = .str s) (hbad : dateParse h s = none) :
    isOverdueTry h todo now = .ok false ∧ (isOverdue h todo now).1 = false := by
  have htry : isOverdueTry h todo now = .ok false := by
    simp [isOverdueTry, hdue, newDate, hbad, setHours, dateGt]
  refine ⟨htry, ?_⟩
  unfold isOverdue
  rw [htry]
  split
  · rfl
  · split <;> rfl

theorem isOverdue_unparseable_dueDate_witness :
    dateParse utc "not-a-valid-date-string" = none ∧
    isOverdueTry utc ⟨1, "Test todo", .str "not-a-valid-date-string", .num 0⟩ 1705338000000
      = .ok false ∧
    (isOverdue utc ⟨1, "Test todo", .str "not-a-valid-date-string", .num 0⟩
      1705338000000).1 = false :=
  ⟨by decide,
    isOverdue_unparseable_dueDate utc
      ⟨1, "Test todo", .str "not-a-valid-date-string", .num 0⟩ 1705338000000
      "not-a-valid-date-string" rfl (by decide)⟩

/-- C8 (fails): for the incomplete todo whose `dueDate` is
"not-a-valid-date-string", on every host and at every instant, `isOverdue`
writes no warning to the console; on a host whose `Date.parse` rejects the
string it returns false with an empty log. -/
theorem isOverdue_unparseable_dueDate_logs_nothing :
    (∀ (h : Host) (now : Int),
      (isOverdue h ⟨1, "Test todo", .str "not-a-valid-date-string", .num 0⟩ now).2 = []) ∧
    dateParse utc "not-a-valid-date-string" = none ∧
    (∀ now : Int,
      isOverdue utc ⟨1, "Test todo", .str "not-a-valid-date-string", .num 0⟩ now
        = (false, [])) := by
  refine ⟨?_, by decide, ?_⟩
  · intro h now
    simp [isOverdue, toBoolean, strictEq, isOverdueTry, newDate]
  · intro now
    have hbad : dateParse utc "not-a-valid-date-string" = none := by decide
    simp [isOverdue, toBoolean, strictEq, isOverdueTry, newDate, hbad, setHours, dateGt]



/-! ## Auxiliary facts about `TodoList` -/

theorem overdueCount_eq_countP (h : Host) (todos : List Todo) (now : Int) :
    overdueCount h todos now = todos.countP (fun todo => (isOverdue h todo now).1) := by
  unfold overdueCount
  rw [List.countP_eq_length_filter]

theorem join_overdueSummary (k : Nat) :
    String.join (overdueSummary k)
      = if k = 1 then "⚠️ 1 overdue item" else "⚠️ " ++ toString k ++ " overdue items" := by
  by_cases h1 : k = 1
  · subst h1
    decide
  · simp [h1, overdueSummary, String.join, String.append_assoc]

theorem todoList_memo (h : Host) (cell : Option MemoCell) (r : Render) :
    (TodoList h cell r).2 = useMemo h cell r := by
  unfold TodoList
  split <;> rfl

theorem todoList_summaryText (h : Host) (cell : Option MemoCell) (r : Render) :
    (TodoList h cell r).1.summaryText
      = if r.todos.val = [] ∨ (TodoList h cell r).2.value = 0 then none
        else if (TodoList h cell r).2.value = 1 then some "⚠️ 1 overdue item"
        else some ("⚠️ " ++ toString (TodoList h cell r).2.value ++ " overdue items") := by
  rw [todoList_memo]
  simp only [TodoList]
  generalize (useMemo h cell r).value = k
  cases hts : r.todos.val with
  | nil => simp [View.summaryText]
  | cons t ts =>
    simp only [List.length_cons, Nat.succ_ne_zero, beq_iff_eq, if_false, View.summaryText]
    by_cases h0 : k = 0
    · simp [h0]
    · have hpos : k > 0 := Nat.pos_of_ne_zero h0
      simp only [hpos, if_true, Option.map_some', join_overdueSummary, h0, or_false,
        reduceCtorEq, if_false]
      split <;> rfl

theorem cellComputedIn_mono (h : Host) {seen : List Render} (r : Render)
    {cell : Option MemoCell} (hc : cellComputedIn h seen cell) :
    cellComputedIn h (seen ++ [r]) cell := by
  cases cell with
  | none => trivial
  | some c =>
    obtain ⟨r0, hmem, hrest⟩ := hc
    exact ⟨r0, List.mem_append_left _ hmem, hrest⟩

/-- After a render the cell holds the dependencies of that render and the count
of one of the renders seen so far. -/
theorem cellComputedIn_useMemo (h : Host) {seen : List Render} {cell : Option MemoCell}
    (hc : cellComputedIn h seen cell) (r : Render) :
    ∃ r0, r0 ∈ seen ++ [r] ∧ (useMemo h cell r).todos = r0.todos.addr ∧
      (useMemo h cell r).currentTime = r0.currentTime.addr ∧
      r0.todos.addr = r.todos.addr ∧ r0.currentTime.addr = r.currentTime.addr ∧
      (useMemo h cell r).value
        = r0.todos.val.countP (fun todo => (isOverdue h todo r0.now).1) := by
  have hfresh : ∃ r0, r0 ∈ seen ++ [r] ∧ r.todos.addr = r0.todos.addr ∧
      r.currentTime.addr = r0.currentTime.addr ∧
      r0.todos.addr = r.todos.addr ∧ r0.currentTime.addr = r.currentTime.addr ∧
      overdueCount h r.todos.val r.now
        = r0.todos.val.countP (fun todo => (isOverdue h todo r0.now).1) :=
    ⟨r, by simp, rfl, rfl, rfl, rfl, overdueCount_eq_countP h _ _⟩
  cases cell with
  | none => simpa [useMemo] using hfresh
  | some c =>
    by_cases hd : depsChanged c r = true
    · simpa [useMemo, hd] using hfresh
    · obtain ⟨r0, hmem, ht, hct, hv⟩ := hc
      have hd2 : c.todos = r.todos.addr ∧ c.currentTime = r.currentTime.addr := by
        simpa [depsChanged] using hd
      refine ⟨r0, List.mem_append_left _ hmem, ?_⟩
      simp only [useMemo, hd, if_false, Bool.false_eq_true]
      exact ⟨ht, hct, by rw [← ht]; exact hd2.1, by rw [← hct]; exact hd2.2, hv⟩

theorem cellComputedIn_renderAll (h : Host) (renders : List Render) :
    ∀ {seen : List Render} {cell : Option MemoCell}, cellComputedIn h seen cell →
      cellComputedIn h (seen ++ renders) (renderAll h cell renders) := by
  induction renders with
  | nil => intro seen cell hc; simpa [renderAll] using hc
  | cons r rs ih =>
    intro seen cell hc
    obtain ⟨r0, hmem, ht, hct, _, _, hv⟩ := cellComputedIn_useMemo h hc r
    have hstep : cellComputedIn h (seen ++ [r]) (some (TodoList h cell r).2) := by
      rw [todoList_memo]
      exact ⟨r0, hmem, ht, hct, hv⟩
    have := ih hstep
    simpa [renderAll] using this

/-- C9: when the `useMemo` callback runs (first render, or a dependency
changed), the overdue count of `TodoList` is the number K of todos for which
`isOverdue` is true at that instant, and the summary is rendered exactly when
K is positive, reading K followed by "overdue item" when K = 1 and by
"overdue items" otherwise.  When no dependency changed the cell is kept; in
every render of every history the count is the number of overdue todos at the
render, with the same dependencies, at which it was computed, and the summary
(of a non-empty list) is present exactly when that count is positive, with the
same text. -/
theorem todoList_overdue_summary (h : Host) (earlier : List Render) (r : Render) :
    ((TodoList h none r).2.value
        = r.todos.val.countP (fun todo => (isOverdue h todo r.now).1) ∧
      (TodoList h none r).1.summaryText
        = if r.todos.val.countP (fun todo => (isOverdue h todo r.now).1) = 0 then none
          else if r.todos.val.countP (fun todo => (isOverdue h todo r.now).1) = 1 then
            some "⚠️ 1 overdue item"
          else
            some ("⚠️ "
              ++ toString (r.todos.val.countP (fun todo => (isOverdue h todo r.now).1))
              ++ " overdue items")) ∧
    (∀ c : MemoCell, depsChanged c r = true → TodoList h (some c) r = TodoList h none r) ∧
    (∀ c : MemoCell, depsChanged c r = false → (TodoList h (some c) r).2 = c) ∧
    (∃ r0, r0 ∈ earlier ++ [r] ∧ r0.todos.addr = r.todos.addr ∧
      r0.currentTime.addr = r.currentTime.addr ∧
      (TodoList h (renderAll h none earlier) r).2.value
        = r0.todos.val.countP (fun todo => (isOverdue h todo r0.now).1)) ∧
    (∀ cell : Option MemoCell,
      (TodoList h cell r).1.summaryText
        = if r.todos.val = [] ∨ (TodoList h cell r).2.value = 0 then none
          else if (TodoList h cell r).2.value = 1 then some "⚠️ 1 overdue item"
          else some ("⚠️ " ++ toString (TodoList h cell r).2.value ++ " overdue items")) := by
  have hval : (TodoList h none r).2.value
      = r.todos.val.countP (fun todo => (isOverdue h todo r.now).1) := by
    rw [todoList_memo]
    exact overdueCount_eq_countP h _ _
  refine ⟨⟨hval, ?_⟩, ?_, ?_, ?_, fun cell => todoList_summaryText h cell r⟩
  · rw [todoList_summaryText, hval]
    by_cases hnil : r.todos.val = []
    · simp [hnil]
    · simp [hnil]
  · intro c hd
    simp [TodoList, useMemo, hd]
  · intro c hd
    rw [todoList_memo]
    simp [useMemo, hd]
  · have hcell : cellComputedIn h ([] ++ earlier) (renderAll h none earlier) :=
      @cellComputedIn_renderAll h earlier [] none trivial
    rw [List.nil_append] at hcell
    obtain ⟨r0, hmem, _, _, ht, hct, hv⟩ := cellComputedIn_useMemo h hcell r
    exact ⟨r0, hmem, ht, hct, by rw [todoList_memo]; exact hv⟩

/-- A re-render with the same array and the same `currentTime` object keeps
the count of the earlier instant: on a host five hours west of UTC the todo due
2024-01-16 is not overdue at the first render, and the second render, a day
later with nothing changed, shows no summary although the todo is overdue by
then; the render after a tick shows it. -/
theorem todoList_keeps_count_until_tick :
    overdueCount newYork [⟨1, "Todo 1", .str "2024-01-16", .num 0⟩] 1705424400000 = 1 ∧
    (TodoList newYork
      (renderAll newYork none
        [⟨⟨1, [⟨1, "Todo 1", .str "2024-01-16", .num 0⟩]⟩, ⟨2, 1705338000000⟩,
          1705338000000⟩])
      ⟨⟨1, [⟨1, "Todo 1", .str "2024-01-16", .num 0⟩]⟩, ⟨2, 1705338000000⟩,
        1705424400000⟩).1.summaryText = none ∧
    (TodoList newYork
      (renderAll newYork none
        [⟨⟨1, [⟨1, "Todo 1", .str "2024-01-16", .num 0⟩]⟩, ⟨2, 1705338000000⟩,
          1705338000000⟩])
      ⟨⟨1, [⟨1, "Todo 1", .str "2024-01-16", .num 0⟩]⟩, ⟨3, 1705424400000⟩,
        1705424400000⟩).1.summaryText = some "⚠️ 1 overdue item" := by
  decide

theorem fireTimer_only_currentTime (s : ViewState) (id : Nat) (now : Int) :
    fireTimer s id now = { s with currentTime := (fireTimer s id now).currentTime } := by
  unfold fireTimer setCurrentTime
  split <;> rfl

theorem viewInvariant_step {todos : List Todo} {mounted : Bool} {s : ViewState}
    (hinv : viewInvariant todos mounted s) (e : Event)
    (hwf : lifecycle mounted [e] = true) :
    viewInvariant todos (mountedAfter mounted [e]) (step s e) := by
  obtain ⟨htodos, hrest⟩ := hinv
  cases e with
  | mount =>
    have hm : mounted = false := by simpa [lifecycle] using hwf
    subst hm
    simp only [Bool.false_eq_true, if_false] at hrest
    obtain ⟨hc, ht⟩ := hrest
    simp [viewInvariant, mountedAfter, step, mountEffect, setInterval, htodos, ht]
  | tick id now =>
    refine ⟨?_, ?_⟩
    · rw [step, fireTimer_only_currentTime]; exact htodos
    · simp only [mountedAfter]
      rw [step, fireTimer_only_currentTime]
      exact hrest
  | unmount =>
    have hm : mounted = true := by simpa [lifecycle] using hwf
    subst hm
    simp only [if_true] at hrest
    obtain ⟨id, hc, ht⟩ := hrest
    simp [viewInvariant, mountedAfter, step, unmountEffect, clearInterval, hc, htodos, ht]

theorem lifecycle_cons (mounted : Bool) (e : Event) (events : List Event) :
    lifecycle mounted (e :: events)
      = (lifecycle mounted [e] && lifecycle (mountedAfter mounted [e]) events) := by
  cases e <;> simp [lifecycle, mountedAfter]

theorem mountedAfter_cons (mounted : Bool) (e : Event) (events : List Event) :
    mountedAfter mounted (e :: events) = mountedAfter (mountedAfter mounted [e]) events := by
  cases e <;> simp [mountedAfter]

theorem viewInvariant_run {todos : List Todo} (events : List Event) :
    ∀ {mounted : Bool} {s : ViewState}, viewInvariant todos mounted s →
      lifecycle mounted events = true →
      viewInvariant todos (mountedAfter mounted events) (run s events) := by
  induction events with
  | nil => intro mounted s hinv _; simpa [run, mountedAfter] using hinv
  | cons e events ih =>
    intro mounted s hinv hwf
    rw [lifecycle_cons, Bool.and_eq_true] at hwf
    rw [mountedAfter_cons]
    have := ih (viewInvariant_step hinv e hwf.1) hwf.2
    simpa [run] using this

theorem run_ticks_of_no_timers (s : ViewState) (hs : s.timers = [])
    (ticks : List (Nat × Int)) :
    run s (ticks.map (fun p => Event.tick p.1 p.2)) = s := by
  induction ticks with
  | nil => rfl
  | cons p ps ih =>
    have h1 : step s (Event.tick p.1 p.2) = s := by simp [step, fireTimer, hs]
    simpa [run, h1] using ih

/-- C10: along every sequence of mount, tick and unmount events that follows the
component lifecycle, the todos are never changed; while the view is mounted
exactly one timer is active, the one started by the mount, with a delay of
60000 ms, and each tick of that timer replaces the stored current time by the
clock reading; once unmounted no timer is left and no later tick changes
anything; and a tick changes nothing but the stored current time. -/
theorem refresh_timer_lifecycle (todos : List Todo) (t0 : Int) (events : List Event)
    (hwf : lifecycle false events = true) :
    (run (initialView todos t0) events).todos = todos ∧
    (mountedAfter false events = true →
      ∃ id, (run (initialView todos t0) events).cleanup = some id ∧
        (run (initialView todos t0) events).timers = [⟨id, 60000⟩] ∧
        ∀ now : Int,
          (run (initialView todos t0) (events ++ [.tick id now])).currentTime = now) ∧
    (mountedAfter false events = false →
      (run (initialView todos t0) events).timers = [] ∧
      ∀ ticks : List (Nat × Int),
        run (run (initialView todos t0) events) (ticks.map (fun p => Event.tick p.1 p.2))
          = run (initialView todos t0) events) ∧
    (∀ (s : ViewState) (id : Nat) (now : Int),
      step s (.tick id now)
        = { s with currentTime := (step s (.tick id now)).currentTime }) := by
  have hinit : viewInvariant todos false (initialView todos t0) := by
    simp [viewInvariant, initialView]
  obtain ⟨htodos, hrest⟩ := viewInvariant_run events hinit hwf
  refine ⟨htodos, ?_, ?_, ?_⟩
  · intro hm
    rw [hm] at hrest
    simp only [if_true] at hrest
    obtain ⟨id, hc, ht⟩ := hrest
    refine ⟨id, hc, ht, fun now => ?_⟩
    simp [run, List.foldl_append, step, fireTimer, setCurrentTime] at ht ⊢
    simp [ht]
  · intro hm
    rw [hm] at hrest
    simp only [Bool.false_eq_true, if_false] at hrest
    exact ⟨hrest.2, run_ticks_of_no_timers _ hrest.2⟩
  · intro s id now
    exact fireTimer_only_currentTime s id now

theorem refresh_timer_lifecycle_witness :
    lifecycle false [.mount, .tick 0 1705338000000, .unmount, .tick 0 1705338060000] = true ∧
    (run (initialView [⟨1, "Todo 1", .str "2025-12-25", .num 0⟩] 1705337940000)
      [.mount, .tick 0 1705338000000, .unmount, .tick 0 1705338060000]).timers = [] ∧
    (run (initialView [⟨1, "Todo 1", .str "2025-12-25", .num 0⟩] 1705337940000)
      [.mount, .tick 0 1705338000000, .unmount, .tick 0 1705338060000]).todos
        = [⟨1, "Todo 1", .str "2025-12-25", .num 0⟩] ∧
    (run (initialView [⟨1, "Todo 1", .str "2025-12-25", .num 0⟩] 1705337940000)
      [.mount, .tick 0 1705338000000, .unmount, .tick 0 1705338060000]).currentTime
        = 1705338000000 :=
  ⟨by decide,
    ((refresh_timer_lifecycle [⟨1, "Todo 1", .str "2025-12-25", .num 0⟩] 1705337940000
      [.mount, .tick 0 1705338000000, .unmount, .tick 0 1705338060000] (by decide)).2.2.1
        (by decide)).1,
    (refresh_timer_lifecycle [⟨1, "Todo 1", .str "2025-12-25", .num 0⟩] 1705337940000
      [.mount, .tick 0 1705338000000, .unmount, .tick 0 1705338060000] (by decide)).1,
    by decide⟩

/-! ## Monotonicity in the current time -/

theorem dateGt_mono {now1 now2 : Int} (hle : now1 ≤ now2) (b : Option Int)
    (hgt : dateGt (some now1) b = true) : dateGt (some now2) b = true := by
  cases b with
  | none => simp [dateGt] at hgt
  | some y =>
    simp only [dateGt, decide_eq_true_eq] at hgt ⊢
    omega

theorem isOverdue_mono (h : Host) (todo : Todo) {now1 now2 : Int} (hle : now1 ≤ now2)
    (hov : (isOverdue h todo now1).1 = true) : (isOverdue h todo now2).1 = true := by
  unfold isOverdue at hov ⊢
  split at hov
  · simp at hov
  · split at hov
    · simp at hov
    · rename_i hdue hcomp
      rw [if_neg hdue, if_neg hcomp]
      unfold isOverdueTry at hov ⊢
      cases hnd : newDate h todo.dueDate with
      | error e => simp [hnd] at hov
      | ok parsed =>
        simp only [hnd] at hov ⊢
        exact dateGt_mono hle _ hov

/-- C11: for a fixed host (hence a fixed time-zone offset) and instants
`now1 ≤ now2`, every todo that `isOverdue` reports overdue at `now1` is reported
overdue at `now2`, and the overdue count of an unchanged list of todos at
`now1` is at most the one at `now2`. -/
theorem isOverdue_monotone_in_now (h : Host) (todos : List Todo) (now1 now2 : Int)
    (hle : now1 ≤ now2) :
    (∀ todo : Todo, (isOverdue h todo now1).1 = true → (isOverdue h todo now2).1 = true) ∧
    overdueCount h todos now1 ≤ overdueCount h todos now2 := by
  refine ⟨fun todo hov => isOverdue_mono h todo hle hov, ?_⟩
  rw [overdueCount_eq_countP, overdueCount_eq_countP]
  exact List.countP_mono_left (fun todo _ hov => isOverdue_mono h todo hle hov)

theorem isOverdue_monotone_in_now_witness :
    (1705338000000 : Int) ≤ 1705424400000 ∧
    overdueCount newYork
        [⟨1, "Todo 1", .str "2024-01-15", .num 0⟩, ⟨2, "Todo 2", .str "2024-01-16", .num 0⟩]
        1705338000000 = 1 ∧
    overdueCount newYork
        [⟨1, "Todo 1", .str "2024-01-15", .num 0⟩, ⟨2, "Todo 2", .str "2024-01-16", .num 0⟩]
        1705424400000 = 2 ∧
    overdueCount newYork
        [⟨1, "Todo 1", .str "2024-01-15", .num 0⟩, ⟨2, "Todo 2", .str "2024-01-16", .num 0⟩]
        1705338000000
      ≤ overdueCount newYork
        [⟨1, "Todo 1", .str "2024-01-15", .num 0⟩, ⟨2, "Todo 2", .str "2024-01-16", .num 0⟩]
        1705424400000 :=
  ⟨by decide, by decide, by decide,
    (isOverdue_monotone_in_now newYork
      [⟨1, "Todo 1", .str "2024-01-15", .num 0⟩, ⟨2, "Todo 2", .str "2024-01-16", .num 0⟩]
      1705338000000 1705424400000 (by decide)).2⟩

end TodoApp
